import Mathlib

/-!
Shallow embedding of `src/tamriin-baby-come-down.py`, an in-memory
hierarchical filesystem (classes `File`, `Folder`, `FileSystem`).

Python objects are mutable and aliased (the `current` cursor is a reference
into the tree, `mv` re-inserts the very same object elsewhere), so the
embedding uses an explicit object heap: nodes are identified by their index
into `FS.heap`, object construction allocates at the end of the heap, and
attribute mutation is an update at an index.  Every `FileSystem` method is a
state transformer `FS → args → FS × Except Err α`: Python exceptions abort
the method but keep every mutation already performed, so the state is
returned alongside the error.
-/

set_option autoImplicit false

namespace PyFS

/-- One Python object of the tree: either a `File` (attributes `name`,
`content`, `password`, where `password = none` models Python `None`) or a
`Folder` (attributes `name` and `children`, an insertion-ordered dict from
child name to heap id, modelled as an association list). -/
inductive Node where
  | file (name : String) (content : String) (password : Option String)
  | folder (name : String) (children : List (String × Nat))
deriving DecidableEq

/-- The `name` attribute shared by `File` and `Folder`. -/
def Node.name : Node → String
  | Node.file n _ _ => n
  | Node.folder n _ => n

/-- Assignment `node.name = n` (used by `mv`: `src.name = new_name`). -/
def Node.rename : Node → String → Node
  | Node.file _ c p, n => Node.file n c p
  | Node.folder _ cs, n => Node.folder n cs

/-- The `children` dict of a folder node (`[]` for a file, which has none). -/
def Node.children : Node → List (String × Nat)
  | Node.file _ _ _ => []
  | Node.folder _ cs => cs

/-- A raised Python exception: its class together with its message. -/
inductive Err where
  | permissionError (msg : String)
  | fileNotFoundError (msg : String)
  | valueError (msg : String)
  | notADirectoryError (msg : String)
  | attrError (msg : String)
deriving DecidableEq

/-- The Python exception class of an error, forgetting the message. -/
def Err.pyClass : Err → String
  | Err.permissionError _ => "PermissionError"
  | Err.fileNotFoundError _ => "FileNotFoundError"
  | Err.valueError _ => "ValueError"
  | Err.notADirectoryError _ => "NotADirectoryError"
  | Err.attrError _ => "AttributeError"

/-- Whether an exception is a `PermissionError`. -/
def Err.isPerm : Err → Bool
  | Err.permissionError _ => true
  | _ => false

/-- `true` unless the outcome is a raised `PermissionError`. -/
def notPermissionDenied {α : Type} : Except Err α → Bool
  | Except.error e => !(Err.isPerm e)
  | Except.ok _ => true

/-- Wraps a string in single quotes, as Python f-strings like
`f"'{name}' not found."` do around interpolated names. -/
def pyq (s : String) : String := "\x27" ++ s ++ "\x27"

/-- Python truthiness of an optional string: `None` and `""` are falsy.
This is the test `if self.password:` performs. -/
def pyTruthy : Option String → Bool
  | none => false
  | some s => !(s == "")

/-- The `FileSystem` object: the object heap, plus the heap ids stored in
`self.root` and `self.current`. -/
structure FS where
  heap : List Node
  root : Nat
  current : Nat
deriving DecidableEq

/-- Dereference a heap id.  Ids created by allocation are always in range;
out-of-range ids (never produced by the embedded operations on states
reachable from `initFS`) dereference to an inert empty folder. -/
def heapGet : List Node → Nat → Node
  | [], _ => Node.folder "" []
  | n :: _, 0 => n
  | _ :: t, i + 1 => heapGet t i

/-- In-place update of the object at a heap id. -/
def heapSet : List Node → Nat → Node → List Node
  | [], _, _ => []
  | _ :: t, 0, n => n :: t
  | h :: t, i + 1, n => h :: heapSet t i n

def getNode (fs : FS) (i : Nat) : Node := heapGet fs.heap i

def setNode (fs : FS) (i : Nat) (n : Node) : FS :=
  { fs with heap := heapSet fs.heap i n }

/-- Dict lookup `children[name]` / membership `name in children`. -/
def childLookup : List (String × Nat) → String → Option Nat
  | [], _ => none
  | e :: cs, k => if e.1 = k then some e.2 else childLookup cs k

/-- Dict deletion `del children[name]` (keys are unique, so removing every
entry with the key equals removing the one entry). -/
def childErase : List (String × Nat) → String → List (String × Nat)
  | [], _ => []
  | e :: cs, k => if e.1 = k then childErase cs k else e :: childErase cs k

/-- `Folder.add(item)`: insert the object `item` (a heap id) into the
children of the folder at `f`, raising `ValueError` on a name collision.
Calling `add` on a `File` raises `AttributeError` (files have no `add`). -/
def folderAdd (fs : FS) (f : Nat) (item : Nat) : FS × Except Err Unit :=
  match getNode fs f with
  | Node.folder nm cs =>
      match childLookup cs ((getNode fs item).name) with
      | some _ =>
          (fs, Except.error
            (Err.valueError (pyq ((getNode fs item).name) ++ " already exists in this folder.")))
      | none =>
          (setNode fs f (Node.folder nm (cs ++ [((getNode fs item).name, item)])), Except.ok ())
  | Node.file _ _ _ =>
      (fs, Except.error (Err.attrError
        (pyq "File" ++ " object has no attribute " ++ pyq "add")))

/-- `Folder.remove(name)`: delete the named child, raising
`FileNotFoundError` if absent. -/
def folderRemove (fs : FS) (f : Nat) (k : String) : FS × Except Err Unit :=
  match getNode fs f with
  | Node.folder nm cs =>
      match childLookup cs k with
      | none =>
          (fs, Except.error (Err.fileNotFoundError (pyq k ++ " not found in this folder.")))
      | some _ => (setNode fs f (Node.folder nm (childErase cs k)), Except.ok ())
  | Node.file _ _ _ =>
      (fs, Except.error (Err.attrError
        (pyq "File" ++ " object has no attribute " ++ pyq "remove")))

/-- `Folder.find(name)`: return the named child, raising
`FileNotFoundError` if absent.  On a `File`, Python raises
`AttributeError` since files have no `find` method. -/
def folderFind (fs : FS) (f : Nat) (k : String) : Except Err Nat :=
  match getNode fs f with
  | Node.folder _ cs =>
      match childLookup cs k with
      | none => Except.error (Err.fileNotFoundError (pyq k ++ " not found."))
      | some c => Except.ok c
  | Node.file _ _ _ =>
      Except.error (Err.attrError
        (pyq "File" ++ " object has no attribute " ++ pyq "find"))

/-- `File.read(password)` on a file with attributes `content` and `pw`:
`if self.password and self.password != password: raise PermissionError`. -/
def readFn (content : String) (pw : Option String) (password : Option String) :
    Except Err String :=
  if pyTruthy pw && pw != password then
    Except.error (Err.permissionError "Incorrect password.")
  else Except.ok content

/-- `File.write(new_content)`: replaces the content unconditionally. -/
def fileWrite (fs : FS) (i : Nat) (newContent : String) : FS × Except Err Unit :=
  match getNode fs i with
  | Node.file n _ p => (setNode fs i (Node.file n newContent p), Except.ok ())
  | Node.folder _ _ =>
      (fs, Except.error (Err.attrError
        (pyq "Folder" ++ " object has no attribute " ++ pyq "write")))

/-- The line-boundary characters of Python `str.splitlines()`: `\n`, `\r`,
`\v` (`\x0b`), `\f` (`\x0c`), the separators `\x1c`-`\x1e`, `\x85`,
`\u2028` and `\u2029`. -/
def isLineBreak (c : Char) : Bool :=
  c == '\n' || c == '\r' || c == '\x0b' || c == '\x0c' ||
  c == '\x1c' || c == '\x1d' || c == '\x1e' || c == '\x85' ||
  c == '\u2028' || c == '\u2029'

/-- Python `str.splitlines()` on character lists: every line-boundary
character ends a line, the two-character sequence `"\r\n"` counts as a
single boundary, and a final unterminated chunk forms a last line, so a
trailing boundary does not produce a trailing empty line. -/
def pySplitlinesL : List Char → List (List Char)
  | [] => []
  | c :: cs =>
      if c = '\r' then
        match cs with
        | [] => [[]]
        | d :: cs2 =>
            if d = '\n' then [] :: pySplitlinesL cs2
            else [] :: pySplitlinesL (d :: cs2)
      else if isLineBreak c then [] :: pySplitlinesL cs
      else
        match pySplitlinesL cs with
        | [] => [[c]]
        | l :: ls => (c :: l) :: ls

/-- Python `sep.join(pieces)` on character lists. -/
def joinWith (sep : List Char) : List (List Char) → List Char
  | [] => []
  | [l] => l
  | l :: ls => l ++ sep ++ joinWith sep ls

/-- `File.delete_line(line_no)`: the local `lines = content.splitlines()`
has the line at `line_no` deleted when `0 <= line_no < len(lines)`, and
`self.content = "\n".join(lines)` is reassigned in every case — also when
the index was out of range. -/
def delete_line (content : String) (line_no : Int) : String :=
  String.mk (joinWith ['\n']
    (if 0 ≤ line_no ∧ line_no < ((pySplitlinesL content.toList).length : Int) then
       (pySplitlinesL content.toList).eraseIdx line_no.toNat
     else pySplitlinesL content.toList))

/-- `path.startswith("/")`. -/
def startsWithSlash (s : String) : Bool :=
  match s.toList with
  | [] => false
  | c :: _ => c == '/'

/-- `path.strip("/")`: drop leading and trailing `'/'` characters. -/
def stripSlashesL (l : List Char) : List Char :=
  ((l.dropWhile (fun c => c == '/')).reverse.dropWhile (fun c => c == '/')).reverse

/-- Python `str.split("/")` on character lists: `"".split("/") = [""]`,
empty pieces between consecutive separators are kept. -/
def splitSlash : List Char → List (List Char)
  | [] => [[]]
  | c :: cs =>
      if c = '/' then [] :: splitSlash cs
      else
        match splitSlash cs with
        | [] => [[c]]
        | l :: ls => (c :: l) :: ls

/-- The resolution loop of `FileSystem.parse_path`: for each part, `".."`
resets the walk to `self.root`, an empty part is skipped, and any other part
descends via `find`. -/
def resolveParts (fs : FS) : Nat → List String → Except Err Nat
  | node, [] => Except.ok node
  | node, part :: rest =>
      if part = ".." then resolveParts fs fs.root rest
      else if part = "" then resolveParts fs node rest
      else
        match folderFind fs node part with
        | Except.error e => Except.error e
        | Except.ok nxt => resolveParts fs nxt rest

/-- `FileSystem.parse_path(path)`: split the stripped path on `"/"`, start
from `root` for absolute paths and from `current` otherwise, and run the
resolution loop.  Pure: resolution never mutates the tree. -/
def parse_path (fs : FS) (path : String) : Except Err Nat :=
  let parts := (splitSlash (stripSlashesL path.toList)).map String.mk
  let start := if startsWithSlash path then fs.root else fs.current
  resolveParts fs start parts

/-- `FileSystem.__init__`: a heap holding the single folder `"root"`. -/
def initFS : FS := { heap := [Node.folder "root" []], root := 0, current := 0 }

/-- `FileSystem.mkdir(name)`: construct `Folder(name)` (allocating it) and
`self.current.add(...)` it. -/
def mkdir (fs : FS) (name : String) : FS × Except Err Unit :=
  let fid := fs.heap.length
  let fs1 : FS := { fs with heap := fs.heap ++ [Node.folder name []] }
  folderAdd fs1 fs1.current fid

/-- `FileSystem.ls()`: `self.current.list_items()`, the child names of the
current folder in insertion order. -/
def ls (fs : FS) : FS × Except Err (List String) :=
  match getNode fs fs.current with
  | Node.folder _ cs => (fs, Except.ok (cs.map Prod.fst))
  | Node.file _ _ _ =>
      (fs, Except.error (Err.attrError
        (pyq "File" ++ " object has no attribute " ++ pyq "list_items")))

/-- `FileSystem.cd(path)`: resolve, and reassign `self.current` when the
result is a `Folder`, else raise `NotADirectoryError`. -/
def cd (fs : FS) (path : String) : FS × Except Err Unit :=
  match parse_path fs path with
  | Except.error e => (fs, Except.error e)
  | Except.ok d =>
      match getNode fs d with
      | Node.folder _ _ => ({ fs with current := d }, Except.ok ())
      | Node.file _ _ _ =>
          (fs, Except.error (Err.notADirectoryError "Path is not a folder."))

/-- `FileSystem.cat(path, password)`: resolve, return `file.read(password)`
on a `File`, and raise `FileNotFoundError("Path is not a file.")` on a
`Folder`. -/
def cat (fs : FS) (path : String) (password : Option String) :
    FS × Except Err String :=
  match parse_path fs path with
  | Except.error e => (fs, Except.error e)
  | Except.ok i =>
      match getNode fs i with
      | Node.file _ content pw => (fs, readFn content pw password)
      | Node.folder _ _ =>
          (fs, Except.error (Err.fileNotFoundError "Path is not a file."))

/-- `"/".join(dest_path.split("/")[:-1])`, the parent part of `mv`/`cp`
destination paths. -/
def destParentStr (p : String) : String :=
  String.mk (joinWith ['/'] ((splitSlash p.toList).dropLast))

/-- `dest_path.split("/")[-1]`, the new name (`split` never returns an
empty list, so the default is never used). -/
def lastSegStr (p : String) : String :=
  String.mk ((splitSlash p.toList).getLastD [])

/-- Sequencing of two mutating statements: a raised exception in the first
aborts the method body, keeping the state as it was at the raise point;
otherwise the next statement runs on the updated state. -/
def seqE (step : FS × Except Err Unit) (k : FS → FS × Except Err Unit) :
    FS × Except Err Unit :=
  match step with
  | (fs1, Except.error e) => (fs1, Except.error e)
  | (fs1, Except.ok _) => k fs1

/-- The password guard of `mv` and `rm`:
`isinstance(x, File) and x.password and x.password != password`. -/
def pwGate (fs : FS) (i : Nat) (password : Option String) : Bool :=
  match getNode fs i with
  | Node.file _ _ pw => pyTruthy pw && pw != password
  | Node.folder _ _ => false

/-- `FileSystem.mv(src_path, dest_path, password)`: resolve the source and
the destination parent, guard the password, then `src.name = new_name`,
`dest_folder.add(src)`, and `self.current.remove(src.name)` — the removal
is keyed on the new name and scoped to the current folder. -/
def mv (fs : FS) (src_path dest_path : String) (password : Option String) :
    FS × Except Err Unit :=
  match parse_path fs src_path with
  | Except.error e => (fs, Except.error e)
  | Except.ok s =>
      match parse_path fs (destParentStr dest_path) with
      | Except.error e => (fs, Except.error e)
      | Except.ok d =>
          let new_name := lastSegStr dest_path
          if pwGate fs s password then
            (fs, Except.error (Err.permissionError "Incorrect password for protected file."))
          else
            let fs1 := setNode fs s ((getNode fs s).rename new_name)
            seqE (folderAdd fs1 d s)
              (fun fs2 => folderRemove fs2 fs2.current ((getNode fs2 s).name))

/-- `FileSystem.cp(src_path, dest_path, password)`: resolve both, require
the source to be a `File` (else `FileNotFoundError("Source must be a
file.")`), guard the password, and add a freshly constructed
`File(new_name, src.content, src.password)` to the destination folder. -/
def cp (fs : FS) (src_path dest_path : String) (password : Option String) :
    FS × Except Err Unit :=
  match parse_path fs src_path with
  | Except.error e => (fs, Except.error e)
  | Except.ok s =>
      match parse_path fs (destParentStr dest_path) with
      | Except.error e => (fs, Except.error e)
      | Except.ok d =>
          let new_name := lastSegStr dest_path
          match getNode fs s with
          | Node.file _ content pw =>
              if pyTruthy pw && pw != password then
                (fs, Except.error (Err.permissionError "Incorrect password for protected file."))
              else
                let nid := fs.heap.length
                let fs1 : FS := { fs with heap := fs.heap ++ [Node.file new_name content pw] }
                folderAdd fs1 d nid
          | Node.folder _ _ =>
              (fs, Except.error (Err.fileNotFoundError "Source must be a file."))

/-- `FileSystem.rm(path, password)`: resolve, guard the password for
protected files, then `self.current.remove(target.name)` — removal scoped
to the current folder. -/
def rm (fs : FS) (path : String) (password : Option String) :
    FS × Except Err Unit :=
  match parse_path fs path with
  | Except.error e => (fs, Except.error e)
  | Except.ok t =>
      if pwGate fs t password then
        (fs, Except.error (Err.permissionError "Incorrect password for protected file."))
      else folderRemove fs fs.current ((getNode fs t).name)

/-! ### Small-step lemmas about the resolution loop -/

theorem resolveParts_nil (fs : FS) (n : Nat) : resolveParts fs n [] = Except.ok n := rfl

theorem resolveParts_dotdot (fs : FS) (n : Nat) (rest : List String) :
    resolveParts fs n (".." :: rest) = resolveParts fs fs.root rest := rfl

theorem resolveParts_empty (fs : FS) (n : Nat) (rest : List String) :
    resolveParts fs n ("" :: rest) = resolveParts fs n rest := rfl

theorem resolveParts_seg (fs : FS) (n : Nat) (a : String) (rest : List String)
    (h1 : a ≠ "..") (h2 : a ≠ "") :
    resolveParts fs n (a :: rest) =
      match folderFind fs n a with
      | Except.error e => Except.error e
      | Except.ok nxt => resolveParts fs nxt rest := by
  simp only [resolveParts]
  rw [if_neg h1, if_neg h2]

/-- Resolution reads only the heap and the root id, never the cursor. -/
theorem resolveParts_current_irrel (fs : FS) (c : Nat) :
    ∀ (l : List String) (n : Nat),
      resolveParts { fs with current := c } n l = resolveParts fs n l := by
  intro l
  induction l with
  | nil => intro n; rfl
  | cons a rest ih =>
      intro n
      by_cases h1 : a = ".."
      · subst h1
        rw [resolveParts_dotdot, resolveParts_dotdot]
        exact ih _
      · by_cases h2 : a = ""
        · subst h2
          rw [resolveParts_empty, resolveParts_empty]
          exact ih _
        · rw [resolveParts_seg _ _ _ _ h1 h2, resolveParts_seg _ _ _ _ h1 h2]
          have hf : folderFind { fs with current := c } n a = folderFind fs n a := rfl
          rw [hf]
          cases folderFind fs n a with
          | error e => rfl
          | ok nxt => exact ih _

/-- Once the walk stands at the root, any run of `""` and `".."` segments
keeps it there. -/
theorem resolveParts_root_skip (fs : FS) (pre : List String)
    (hall : ∀ s ∈ pre, s = "" ∨ s = "..") (l : List String) :
    resolveParts fs fs.root (pre ++ l) = resolveParts fs fs.root l := by
  induction pre with
  | nil => rfl
  | cons a rest ih =>
      rcases hall a (List.mem_cons_self a rest) with h | h
      · subst h
        rw [List.cons_append, resolveParts_empty]
        exact ih (fun s hs => hall s (List.mem_cons_of_mem _ hs))
      · subst h
        rw [List.cons_append, resolveParts_dotdot]
        exact ih (fun s hs => hall s (List.mem_cons_of_mem _ hs))

/-- A segment run of `""`/`".."` containing at least one `".."` sends the
walk to the root, no matter where it started. -/
theorem resolveParts_dots_to_root (fs : FS) (pre : List String)
    (hmem : ".." ∈ pre) (hall : ∀ s ∈ pre, s = "" ∨ s = "..") :
    ∀ (cur : Nat) (l : List String),
      resolveParts fs cur (pre ++ l) = resolveParts fs fs.root l := by
  induction pre with
  | nil => exact absurd hmem (List.not_mem_nil _)
  | cons a rest ih =>
      intro cur l
      rcases hall a (List.mem_cons_self a rest) with h | h
      · subst h
        rw [List.cons_append, resolveParts_empty]
        have hmem' : ".." ∈ rest := by
          rcases List.mem_cons.mp hmem with h | h
          · exact absurd h (by decide)
          · exact h
        exact ih hmem' (fun s hs => hall s (List.mem_cons_of_mem _ hs)) cur l
      · subst h
        rw [List.cons_append, resolveParts_dotdot]
        exact resolveParts_root_skip fs rest
          (fun s hs => hall s (List.mem_cons_of_mem _ hs)) l

/-- A three-level demonstration tree: `root/docs/file1.txt`, cursor at
`docs`. -/
def demoFS : FS :=
  { heap := [Node.folder "root" [("docs", 1)],
             Node.folder "docs" [("file1.txt", 2)],
             Node.file "file1.txt" "Hello, World!" none],
    root := 0, current := 1 }

/-- C1: for every reachable cursor folder and every name `x`, resolving a
relative path whose segments before `x` are all `".."` (or empty), with at
least one `".."`, yields the same node as resolving the relative path `x`
with the cursor at the root: each `".."` segment resets the in-progress
resolution to the root folder rather than moving one level up. -/
theorem c1_parse_path_dotdot_resets_to_root (fs : FS) (cur : Nat)
    (p x : String) (pre : List String)
    (hmem : ".." ∈ pre) (hall : ∀ s ∈ pre, s = "" ∨ s = "..")
    (hp : startsWithSlash p = false)
    (hsplit : (splitSlash (stripSlashesL p.toList)).map String.mk = pre ++ [x])
    (hx : startsWithSlash x = false)
    (hxsplit : (splitSlash (stripSlashesL x.toList)).map String.mk = [x]) :
    parse_path { fs with current := cur } p =
      parse_path { fs with current := fs.root } x := by
  unfold parse_path
  rw [hp, hx, hsplit, hxsplit]
  simp only [Bool.false_eq_true, if_false]
  rw [resolveParts_current_irrel, resolveParts_current_irrel]
  exact resolveParts_dots_to_root fs pre hmem hall cur [x]

/-- C1 witness: in the concrete tree, `"../../docs"` resolved from the
`docs` folder equals `"docs"` resolved from the root. -/
theorem c1_witness :
    parse_path { demoFS with current := 1 } "../../docs" =
      parse_path { demoFS with current := demoFS.root } "docs" :=
  c1_parse_path_dotdot_resets_to_root demoFS 1 "../../docs" "docs" ["..", ".."]
    (by decide) (by decide) (by decide) (by decide) (by decide) (by decide)

/-! ### Shared facts about the read password gate -/

theorem pyTruthy_some_true (P : String) (h : P ≠ "") : pyTruthy (some P) = true := by
  simp only [pyTruthy, Bool.not_eq_true']
  exact beq_false_of_ne h

/-- `read` with the exact password on any file returns the content. -/
theorem readFn_correct (content : String) (pw : Option String) :
    readFn content pw pw = Except.ok content := by
  simp [readFn]

/-- `read` with a wrong password on a file protected by a non-empty
password raises `PermissionError`. -/
theorem readFn_wrong_password (content : String) (P : String) (p : Option String)
    (hne : P ≠ "") (hp : p ≠ some P) :
    readFn content (some P) p =
      Except.error (Err.permissionError "Incorrect password.") := by
  have h1 : pyTruthy (some P) = true := pyTruthy_some_true P hne
  have h2 : ((some P : Option String) != p) = true :=
    bne_iff_ne.mpr (fun h => hp h.symm)
  simp [readFn, h1, h2]

/-! ### C2: the read password gate -/

/-- C2 counterexample: a file whose `password` attribute is `""` is, per the
claim, protected with password `""`, yet `read` with a different password
returns the content instead of raising `PermissionError` — `if
self.password:` tests truthiness, and `""` is falsy. -/
theorem c2_counterexample :
    readFn "secret" (some "") (some "wrong") = Except.ok "secret" ∧
    (some "wrong" : Option String) ≠ some "" :=
  ⟨rfl, by decide⟩

/-- C2 (amended): for every `File`, if its password is absent `read(p)`
returns the content for every `p`; if its password is a NON-EMPTY string
`P`, `read(P)` returns the content and `read(q)` for `q ≠ P` (including
absent) raises `PermissionError` (and, `read` being pure, the content is
unchanged).  A password equal to `""` is truthy-unprotected, see C9. -/
theorem c2_read_password_gate (content : String) (pw p : Option String) :
    (pw = none → readFn content pw p = Except.ok content) ∧
    (∀ P : String, pw = some P → P ≠ "" →
      (readFn content pw (some P) = Except.ok content ∧
       (p ≠ some P →
         readFn content pw p = Except.error (Err.permissionError "Incorrect password.")))) := by
  constructor
  · intro h
    subst h
    rfl
  · intro P hP hne
    subst hP
    exact ⟨readFn_correct content (some P), fun hp => readFn_wrong_password content P p hne hp⟩

/-- C2 witness: concrete runs of the amended gate. -/
theorem c2_witness :
    readFn "data" (some "pw") (some "pw") = Except.ok "data" ∧
    readFn "data" (some "pw") none =
      Except.error (Err.permissionError "Incorrect password.") ∧
    readFn "data" none (some "anything") = Except.ok "data" := by
  refine ⟨?_, ?_, ?_⟩
  · exact ((c2_read_password_gate "data" (some "pw") (some "pw")).2 "pw" rfl
      (by decide)).1
  · exact ((c2_read_password_gate "data" (some "pw") none).2 "pw" rfl
      (by decide)).2 (by decide)
  · exact (c2_read_password_gate "data" none (some "anything")).1 rfl

/-! ### C3: delete_line -/

theorem pySplitlinesL_cons_nl (cs : List Char) :
    pySplitlinesL ('\n' :: cs) = [] :: pySplitlinesL cs := by
  cases cs with
  | nil => rfl
  | cons d ds => rfl

theorem pySplitlinesL_cons (c : Char) (cs : List Char)
    (hc : isLineBreak c = false) :
    pySplitlinesL (c :: cs) =
      match pySplitlinesL cs with
      | [] => [[c]]
      | l :: ls => (c :: l) :: ls := by
  have hr : c ≠ '\r' := by
    intro h
    rw [h] at hc
    exact absurd hc (by decide)
  have hb : ¬ (isLineBreak c = true) := by
    rw [hc]
    exact Bool.false_ne_true
  cases cs with
  | nil =>
      simp only [pySplitlinesL]
      rw [if_neg hr, if_neg hb]
  | cons d ds =>
      simp only [pySplitlinesL]
      rw [if_neg hr, if_neg hb]

theorem pySplitlinesL_ne_nil (c : Char) (cs : List Char) :
    pySplitlinesL (c :: cs) ≠ [] := by
  cases cs with
  | nil =>
      simp only [pySplitlinesL]
      by_cases hr : c = '\r'
      · rw [if_pos hr]
        exact List.cons_ne_nil _ _
      · rw [if_neg hr]
        by_cases hb : isLineBreak c = true
        · rw [if_pos hb]
          exact List.cons_ne_nil _ _
        · rw [if_neg hb]
          exact List.cons_ne_nil _ _
  | cons d ds =>
      simp only [pySplitlinesL]
      by_cases hr : c = '\r'
      · rw [if_pos hr]
        by_cases hd : d = '\n'
        · rw [if_pos hd]
          exact List.cons_ne_nil _ _
        · rw [if_neg hd]
          exact List.cons_ne_nil _ _
      · rw [if_neg hr]
        by_cases hb : isLineBreak c = true
        · rw [if_pos hb]
          exact List.cons_ne_nil _ _
        · rw [if_neg hb]
          cases pySplitlinesL (d :: ds) with
          | nil => exact List.cons_ne_nil _ _
          | cons a as => exact List.cons_ne_nil _ _

/-- Splitting into lines and rejoining with `"\n"` is the identity on
content whose only line-boundary characters are plain `'\n'` and which does
not end with a newline. -/
theorem joinWith_pySplitlinesL (l : List Char)
    (hnb : ∀ c ∈ l, isLineBreak c = true → c = '\n')
    (h : l.getLast? ≠ some '\n') :
    joinWith ['\n'] (pySplitlinesL l) = l := by
  induction l with
  | nil => rfl
  | cons c cs ih =>
      by_cases hc : c = '\n'
      · subst hc
        cases cs with
        | nil => exact absurd (by simp) h
        | cons d ds =>
            have hlast : (d :: ds).getLast? ≠ some '\n' := by
              rwa [List.getLast?_cons_cons] at h
            have hnb2 : ∀ x ∈ d :: ds, isLineBreak x = true → x = '\n' :=
              fun x hx => hnb x (List.mem_cons_of_mem _ hx)
            rw [pySplitlinesL_cons_nl]
            have hih := ih hnb2 hlast
            cases hsp : pySplitlinesL (d :: ds) with
            | nil => exact absurd hsp (pySplitlinesL_ne_nil d ds)
            | cons x xs =>
                rw [hsp] at hih
                have hj : joinWith ['\n'] ([] :: x :: xs) =
                    '\n' :: joinWith ['\n'] (x :: xs) := rfl
                rw [hj, hih]
      · have hb : isLineBreak c = false := by
          cases hbc : isLineBreak c with
          | false => rfl
          | true => exact absurd (hnb c (List.mem_cons_self c cs) hbc) hc
        rw [pySplitlinesL_cons _ _ hb]
        cases cs with
        | nil => rfl
        | cons d ds =>
            have hlast : (d :: ds).getLast? ≠ some '\n' := by
              rwa [List.getLast?_cons_cons] at h
            have hnb2 : ∀ x ∈ d :: ds, isLineBreak x = true → x = '\n' :=
              fun x hx => hnb x (List.mem_cons_of_mem _ hx)
            have hih := ih hnb2 hlast
            cases hsp : pySplitlinesL (d :: ds) with
            | nil => exact absurd hsp (pySplitlinesL_ne_nil d ds)
            | cons x xs =>
                rw [hsp] at hih
                cases xs with
                | nil =>
                    simp only [joinWith] at hih ⊢
                    rw [hih]
                | cons y ys =>
                    simp only [joinWith] at hih ⊢
                    rw [List.cons_append, List.cons_append, hih]

theorem mk_toList (s : String) : String.mk s.toList = s := by
  cases s
  rfl

/-- C3 counterexample: an out-of-range `delete_line` does not leave the
content unchanged — the splitlines/join round trip drops a trailing newline
(`"a\nb\n"` becomes `"a\nb"` at index 5) and rewrites any non-`'\n'` line
boundary to `'\n'` (`"a\rb"` becomes `"a\nb"` at index 5). -/
theorem c3_counterexample :
    delete_line "a\nb\n" 5 = "a\nb" ∧ delete_line "a\nb\n" 5 ≠ "a\nb\n" ∧
    delete_line "a\rb" 5 = "a\nb" ∧ delete_line "a\rb" 5 ≠ "a\rb" :=
  ⟨rfl, by decide, rfl, by decide⟩

/-- C3 (amended): for an out-of-range index no line is removed and no error
is raised, but the content is reassigned to the splitlines/join
normalization of itself; that equals the original when every line-boundary
character of the content (`splitlines` also breaks on `\r`, `\r\n`, `\v`,
`\f`, `\x1c`-`\x1e`, `\x85`, `\u2028`, `\u2029`) is a plain `'\n'` and the
content does not end with a newline — otherwise boundaries are rewritten to
`'\n'` and a trailing one is dropped.  For a valid index exactly the `i`-th
line is removed and the rest rejoined with newline. -/
theorem c3_delete_line_amended (content : String) (i : Int) :
    (¬ (0 ≤ i ∧ i < ((pySplitlinesL content.toList).length : Int)) →
       (delete_line content i =
          String.mk (joinWith ['\n'] (pySplitlinesL content.toList)) ∧
        ((∀ c ∈ content.toList, isLineBreak c = true → c = '\n') →
         content.toList.getLast? ≠ some '\n' →
         delete_line content i = content))) ∧
    ((0 ≤ i ∧ i < ((pySplitlinesL content.toList).length : Int)) →
       delete_line content i =
         String.mk (joinWith ['\n'] ((pySplitlinesL content.toList).eraseIdx i.toNat))) := by
  constructor
  · intro h
    constructor
    · unfold delete_line
      rw [if_neg h]
    · intro hnb hl
      unfold delete_line
      rw [if_neg h, joinWith_pySplitlinesL _ hnb hl, mk_toList]
  · intro h
    unfold delete_line
    rw [if_pos h]

/-- C3 witness: an out-of-range delete on newline-normal content is a
no-op; a valid delete removes the line. -/
theorem c3_witness :
    delete_line "x\ny" 7 = "x\ny" ∧ delete_line "x\ny" 1 = "x" := by
  constructor
  · exact ((c3_delete_line_amended "x\ny" 7).1 (by decide)).2 (by decide) (by decide)
  · rw [(c3_delete_line_amended "x\ny" 1).2 (by decide)]
    rfl

/-! ### C4: descending through a File -/

/-- A tree whose root holds the single unprotected file `f`. -/
def fileFS : FS :=
  { heap := [Node.folder "root" [("f", 1)], Node.file "f" "data" none],
    root := 0, current := 0 }

/-- C4: at the failing input — resolving `"f/x"` where `f` is a File — the
segment `"x"` must be looked up inside a File; the code calls `find` on the
File object and crashes with `AttributeError`, not the `FileNotFoundError`
(`NotFound`) promised by the claim and by the `parse_path` docstring. -/
theorem c4_descend_through_file_crashes :
    parse_path fileFS "f/x" =
      Except.error (Err.attrError
        "\x27File\x27 object has no attribute \x27find\x27") ∧
    Err.pyClass (Err.attrError "\x27File\x27 object has no attribute \x27find\x27") =
      "AttributeError" :=
  ⟨rfl, rfl⟩

/-! ### C5: cat error kinds -/

/-- A tree whose root holds the folder `docs` and the unprotected file `f`. -/
def mixedFS : FS :=
  { heap := [Node.folder "root" [("docs", 1), ("f", 2)],
             Node.folder "docs" [],
             Node.file "f" "hello" none],
    root := 0, current := 0 }

/-- C5 counterexample: `cat` on a path resolving to a Folder raises
`FileNotFoundError("Path is not a file.")`, whose exception class equals
the class of a genuine `NotFound` lookup failure — the kind-mismatch
failure is NOT distinct from `NotFound` at the exception-type level, only
its message differs. -/
theorem c5_counterexample :
    (cat mixedFS "docs" none).2 =
      Except.error (Err.fileNotFoundError "Path is not a file.") ∧
    parse_path mixedFS "nope" =
      Except.error (Err.fileNotFoundError "\x27nope\x27 not found.") ∧
    Err.pyClass (Err.fileNotFoundError "Path is not a file.") =
      Err.pyClass (Err.fileNotFoundError "\x27nope\x27 not found.") :=
  ⟨rfl, rfl, rfl⟩

/-- C5 (amended): for every path resolving to a Folder, `cat` fails by
raising `FileNotFoundError` with message `"Path is not a file."` — the same
exception class as `NotFound` failures, distinguishable only by message —
leaving the state unchanged; for every path resolving to a File it returns
`read(password)`, propagating `PermissionError` on a wrong password for a
file protected by a non-empty password. -/
theorem c5_cat_kinds (fs : FS) (path : String) (pw : Option String) (i : Nat)
    (hres : parse_path fs path = Except.ok i) :
    (∀ nm cs, getNode fs i = Node.folder nm cs →
       cat fs path pw =
         (fs, Except.error (Err.fileNotFoundError "Path is not a file."))) ∧
    (∀ nm c fpw, getNode fs i = Node.file nm c fpw →
       cat fs path pw = (fs, readFn c fpw pw)) ∧
    (∀ nm c P, getNode fs i = Node.file nm c (some P) → P ≠ "" → pw ≠ some P →
       cat fs path pw =
         (fs, Except.error (Err.permissionError "Incorrect password."))) := by
  refine ⟨?_, ?_, ?_⟩
  · intro nm cs hn
    unfold cat
    simp only [hres, hn]
  · intro nm c fpw hn
    unfold cat
    simp only [hres, hn]
  · intro nm c P hn hP hpw
    unfold cat
    simp only [hres, hn]
    rw [readFn_wrong_password c P pw hP hpw]

/-- C5 witness: `cat` on the folder `docs` raises the kind-mismatch error;
`cat` on the file `f` returns its content. -/
theorem c5_witness :
    cat mixedFS "docs" none =
      (mixedFS, Except.error (Err.fileNotFoundError "Path is not a file.")) ∧
    cat mixedFS "f" none = (mixedFS, Except.ok "hello") := by
  constructor
  · exact (c5_cat_kinds mixedFS "docs" none 1 rfl).1 "docs" [] rfl
  · rw [(c5_cat_kinds mixedFS "f" none 2 rfl).2.1 "f" "hello" none rfl]
    rfl

/-! ### Frame lemmas: no folder or file operation moves the cursor -/

theorem setNode_current (fs : FS) (i : Nat) (n : Node) :
    (setNode fs i n).current = fs.current := rfl

theorem folderAdd_current (fs : FS) (f x : Nat) :
    (folderAdd fs f x).1.current = fs.current := by
  unfold folderAdd
  split
  · split
    · rfl
    · rfl
  · rfl

theorem folderRemove_current (fs : FS) (f : Nat) (k : String) :
    (folderRemove fs f k).1.current = fs.current := by
  unfold folderRemove
  split
  · split
    · rfl
    · rfl
  · rfl

theorem seqE_fst_error (a : FS) (e : Err) (k : FS → FS × Except Err Unit) :
    seqE (a, Except.error e) k = (a, Except.error e) := rfl

theorem seqE_fst_ok (a : FS) (u : Unit) (k : FS → FS × Except Err Unit) :
    seqE (a, Except.ok u) k = k a := rfl

theorem seqE_current (step : FS × Except Err Unit) (k : FS → FS × Except Err Unit)
    (h2 : ∀ a, (k a).1.current = a.current) :
    (seqE step k).1.current = step.1.current := by
  rcases step with ⟨a, r⟩
  cases r with
  | error e => rfl
  | ok u => exact h2 a

theorem seqE_notPerm (step : FS × Except Err Unit) (k : FS → FS × Except Err Unit)
    (h1 : notPermissionDenied step.2 = true)
    (h2 : ∀ a, notPermissionDenied (k a).2 = true) :
    notPermissionDenied (seqE step k).2 = true := by
  rcases step with ⟨a, r⟩
  cases r with
  | error e => exact h1
  | ok u => exact h2 a

/-! ### C7: rm with a wrong password -/

/-- A tree whose root holds a file `f` whose password attribute is the
empty string — "protected" in the sense of a present password. -/
def emptyPwFS : FS :=
  { heap := [Node.folder "root" [("f", 1)], Node.file "f" "top secret" (some "")],
    root := 0, current := 0 }

/-- C7 counterexample: the file `f` has password `""` (present, hence a
protected file per the glossary); `rm` with the different password
`"wrong"` succeeds and removes the file instead of failing with
`PermissionDenied` and leaving it findable. -/
theorem c7_counterexample :
    (rm emptyPwFS "f" (some "wrong")).2 = Except.ok () ∧
    childLookup (getNode (rm emptyPwFS "f" (some "wrong")).1 0).children "f" = none :=
  ⟨rfl, rfl⟩

/-- C7 (amended): for every path resolving to a File protected with a
NON-EMPTY password P and every supplied password different from P, rm fails
with PermissionError raised before any mutation, returning the whole tree
unchanged — the file is still present under its name and findable (the
same resolution still succeeds). -/
theorem c7_rm_wrong_password (fs : FS) (path : String) (pw : Option String)
    (t : Nat) (nm c P : String)
    (hres : parse_path fs path = Except.ok t)
    (hn : getNode fs t = Node.file nm c (some P))
    (hP : P ≠ "") (hpw : pw ≠ some P) :
    rm fs path pw =
      (fs, Except.error (Err.permissionError "Incorrect password for protected file.")) ∧
    parse_path (rm fs path pw).1 path = Except.ok t := by
  have hb : ((some P : Option String) != pw) = true :=
    bne_iff_ne.mpr (fun h => hpw h.symm)
  have hgate : pwGate fs t pw = true := by
    simp only [pwGate, hn, pyTruthy_some_true P hP, hb, Bool.and_self]
  have h1 : rm fs path pw =
      (fs, Except.error (Err.permissionError "Incorrect password for protected file.")) := by
    unfold rm
    simp only [hres, hgate, if_true]
  refine ⟨h1, ?_⟩
  rw [h1]
  exact hres

/-- A tree whose root holds the file `s` protected with the non-empty
password `"P"`. -/
def protFS : FS :=
  { heap := [Node.folder "root" [("s", 1)], Node.file "s" "c" (some "P")],
    root := 0, current := 0 }

/-- C7 witness: a concrete protected file survives an `rm` with a wrong
password. -/
theorem c7_witness :
    rm protFS "s" (some "wrong") =
      (protFS,
       Except.error (Err.permissionError "Incorrect password for protected file.")) :=
  (c7_rm_wrong_password protFS "s" (some "wrong") 1 "s" "c" "P" rfl rfl
    (by decide) (by decide)).1

/-! ### C10: only cd moves the cursor -/

/-- C10: `mkdir`, `ls`, `cat`, `mv`, `cp` and `rm` leave the
current-folder cursor referring to the same folder object (heap id) they
found it at, whether they succeed or fail — they may mutate that folder's
children in the heap, but never which folder is current; `cd` is the only
command that reassigns it. -/
theorem c10_cursor_invariance (fs : FS) (nm pth sp dp : String) (pw : Option String) :
    (mkdir fs nm).1.current = fs.current ∧
    (ls fs).1.current = fs.current ∧
    (cat fs pth pw).1.current = fs.current ∧
    (mv fs sp dp pw).1.current = fs.current ∧
    (cp fs sp dp pw).1.current = fs.current ∧
    (rm fs pth pw).1.current = fs.current := by
  refine ⟨?_, ?_, ?_, ?_, ?_, ?_⟩
  · unfold mkdir
    rw [folderAdd_current]
  · unfold ls
    cases getNode fs fs.current with
    | file n c p => rfl
    | folder n cs => rfl
  · unfold cat
    split
    · rfl
    · split
      · rfl
      · rfl
  · unfold mv
    split
    · rfl
    · split
      · rfl
      · split
        · rfl
        · rw [seqE_current _ _ (fun a => folderRemove_current a a.current _),
            folderAdd_current]
          rfl
  · unfold cp
    split
    · rfl
    · split
      · rfl
      · split
        · split
          · rfl
          · rw [folderAdd_current]
        · rfl
  · unfold rm
    cases parse_path fs pth with
    | error e => rfl
    | ok t =>
        by_cases hg : pwGate fs t pw
        · simp only [hg, if_true]
        · simp only [hg, if_false, Bool.false_eq_true]
          rw [folderRemove_current]

/-! ### Heap and children-dict lemmas -/

theorem heapGet_heapSet_same : ∀ (l : List Node) (i : Nat) (n : Node),
    i < l.length → heapGet (heapSet l i n) i = n := by
  intro l
  induction l with
  | nil => intro i n h; exact absurd h (by simp)
  | cons a t ih =>
      intro i n h
      cases i with
      | zero => rfl
      | succ j => exact ih j n (Nat.lt_of_succ_lt_succ h)

theorem heapGet_heapSet_ne : ∀ (l : List Node) (i j : Nat) (n : Node),
    i ≠ j → heapGet (heapSet l i n) j = heapGet l j := by
  intro l
  induction l with
  | nil => intro i j n _; rfl
  | cons a t ih =>
      intro i j n hij
      cases i with
      | zero =>
          cases j with
          | zero => exact absurd rfl hij
          | succ j2 => rfl
      | succ i2 =>
          cases j with
          | zero => rfl
          | succ j2 => exact ih i2 j2 n (fun h => hij (by rw [h]))

theorem heapGet_append_lt : ∀ (l l2 : List Node) (i : Nat),
    i < l.length → heapGet (l ++ l2) i = heapGet l i := by
  intro l
  induction l with
  | nil => intro l2 i h; exact absurd h (by simp)
  | cons a t ih =>
      intro l2 i h
      cases i with
      | zero => rfl
      | succ j => exact ih l2 j (Nat.lt_of_succ_lt_succ h)

theorem heapGet_append_len : ∀ (l : List Node) (n : Node),
    heapGet (l ++ [n]) l.length = n := by
  intro l
  induction l with
  | nil => intro n; rfl
  | cons a t ih => intro n; exact ih n

theorem heapSet_length : ∀ (l : List Node) (i : Nat) (n : Node),
    (heapSet l i n).length = l.length := by
  intro l
  induction l with
  | nil => intro i n; rfl
  | cons a t ih =>
      intro i n
      cases i with
      | zero => rfl
      | succ j => simp only [heapSet, List.length_cons, ih]

theorem heapGet_oob : ∀ (l : List Node) (i : Nat),
    l.length ≤ i → heapGet l i = Node.folder "" [] := by
  intro l
  induction l with
  | nil => intro i _; rfl
  | cons a t ih =>
      intro i h
      cases i with
      | zero => exact absurd h (by simp)
      | succ j => exact ih j (Nat.le_of_succ_le_succ h)

theorem Node.rename_name (x : Node) (n : String) : (x.rename n).name = n := by
  cases x with
  | file a b c => rfl
  | folder a b => rfl

theorem Node.rename_children (x : Node) (n : String) :
    (x.rename n).children = x.children := by
  cases x with
  | file a b c => rfl
  | folder a b => rfl

theorem getNode_setNode_ne (fs : FS) (i j : Nat) (n : Node) (h : i ≠ j) :
    getNode (setNode fs i n) j = getNode fs j :=
  heapGet_heapSet_ne fs.heap i j n h

theorem getNode_setNode_same (fs : FS) (i : Nat) (n : Node) (h : i < fs.heap.length) :
    getNode (setNode fs i n) i = n :=
  heapGet_heapSet_same fs.heap i n h

theorem childLookup_append : ∀ (cs ds : List (String × Nat)) (k : String),
    childLookup (cs ++ ds) k =
      match childLookup cs k with
      | some v => some v
      | none => childLookup ds k := by
  intro cs
  induction cs with
  | nil => intro ds k; rfl
  | cons e t ih =>
      intro ds k
      by_cases h : e.1 = k
      · simp only [List.cons_append, childLookup, if_pos h]
      · simp only [List.cons_append, childLookup, if_neg h]
        exact ih ds k

theorem childLookup_childErase_self : ∀ (cs : List (String × Nat)) (k : String),
    childLookup (childErase cs k) k = none := by
  intro cs
  induction cs with
  | nil => intro k; rfl
  | cons e t ih =>
      intro k
      by_cases h : e.1 = k
      · simp only [childErase, if_pos h]
        exact ih k
      · simp only [childErase, if_neg h, childLookup, if_neg h]
        exact ih k

theorem childLookup_childErase_ne : ∀ (cs : List (String × Nat)) (k j : String),
    j ≠ k → childLookup (childErase cs k) j = childLookup cs j := by
  intro cs
  induction cs with
  | nil => intro k j _; rfl
  | cons e t ih =>
      intro k j hjk
      by_cases h : e.1 = k
      · have h2 : e.1 ≠ j := by rw [h]; exact fun hh => hjk hh.symm
        simp only [childErase, if_pos h, childLookup, if_neg h2]
        exact ih k j hjk
      · by_cases h3 : e.1 = j
        · simp only [childErase, if_neg h, childLookup, if_pos h3]
        · simp only [childErase, if_neg h, childLookup, if_neg h3]
          exact ih k j hjk

/-! ### C8: cp creates an independent copy -/

/-- C8: for every successful `cp(srcPath, destPath, password)` from a
resolved source File, the source keeps exactly its name, content and
password; the copy is a freshly allocated File (at the old heap end) named
by the destination's last segment with the same content and password; and
the two are independent objects: a `write` on the copy leaves the source
exactly as before, and a `write` on the source leaves the copy exactly as
created. -/
theorem c8_cp_independent (fs : FS) (sp dp : String) (pw : Option String)
    (s : Nat) (nm c : String) (p : Option String)
    (hs : parse_path fs sp = Except.ok s)
    (hn : getNode fs s = Node.file nm c p)
    (hlt : s < fs.heap.length)
    (hsucc : (cp fs sp dp pw).2 = Except.ok ()) :
    getNode (cp fs sp dp pw).1 s = Node.file nm c p ∧
    getNode (cp fs sp dp pw).1 fs.heap.length = Node.file (lastSegStr dp) c p ∧
    (∀ z, getNode (fileWrite (cp fs sp dp pw).1 fs.heap.length z).1 s =
       Node.file nm c p) ∧
    (∀ z, getNode (fileWrite (cp fs sp dp pw).1 s z).1 fs.heap.length =
       Node.file (lastSegStr dp) c p) := by
  unfold cp at hsucc ⊢
  simp only [hs] at hsucc ⊢
  cases hd : parse_path fs (destParentStr dp) with
  | error e =>
      simp only [hd] at hsucc
      cases hsucc
  | ok d =>
      simp only [hd, hn] at hsucc ⊢
      by_cases hg : (pyTruthy p && p != pw) = true
      · simp only [hg, if_true] at hsucc
        cases hsucc
      · simp only [hg, if_false, Bool.false_eq_true] at hsucc ⊢
        have hfs1 : ({ heap := fs.heap ++ [Node.file (lastSegStr dp) c p],
                       root := fs.root, current := fs.current } : FS).heap =
            fs.heap ++ [Node.file (lastSegStr dp) c p] := rfl
        have hnid : getNode ({ heap := fs.heap ++ [Node.file (lastSegStr dp) c p],
                               root := fs.root, current := fs.current } : FS)
            fs.heap.length = Node.file (lastSegStr dp) c p :=
          heapGet_append_len fs.heap _
        have hs1 : getNode ({ heap := fs.heap ++ [Node.file (lastSegStr dp) c p],
                              root := fs.root, current := fs.current } : FS) s =
            Node.file nm c p := by
          have := heapGet_append_lt fs.heap [Node.file (lastSegStr dp) c p] s hlt
          unfold getNode
          rw [hfs1, this]
          exact hn
        unfold folderAdd at hsucc ⊢
        cases hfd : getNode ({ heap := fs.heap ++ [Node.file (lastSegStr dp) c p],
                               root := fs.root, current := fs.current } : FS) d with
        | file a b e =>
            simp only [hfd] at hsucc
            cases hsucc
        | folder dnm dcs =>
            simp only [hfd, hnid, Node.name] at hsucc ⊢
            cases hcl : childLookup dcs (lastSegStr dp) with
            | some w =>
                simp only [hcl] at hsucc
                cases hsucc
            | none =>
                simp only [hcl]
                have hds : d ≠ s := by
                  intro h
                  rw [h, hs1] at hfd
                  exact Node.noConfusion hfd
                have hdn : d ≠ fs.heap.length := by
                  intro h
                  rw [h, hnid] at hfd
                  exact Node.noConfusion hfd
                have hsn : s ≠ fs.heap.length := Nat.ne_of_lt hlt
                have g1 : getNode (setNode
                    { heap := fs.heap ++ [Node.file (lastSegStr dp) c p],
                      root := fs.root, current := fs.current } d
                    (Node.folder dnm (dcs ++ [(lastSegStr dp, fs.heap.length)]))) s =
                    Node.file nm c p := by
                  rw [getNode_setNode_ne _ _ _ _ hds]
                  exact hs1
                have g2 : getNode (setNode
                    { heap := fs.heap ++ [Node.file (lastSegStr dp) c p],
                      root := fs.root, current := fs.current } d
                    (Node.folder dnm (dcs ++ [(lastSegStr dp, fs.heap.length)])))
                    fs.heap.length = Node.file (lastSegStr dp) c p := by
                  rw [getNode_setNode_ne _ _ _ _ hdn]
                  exact hnid
                refine ⟨g1, g2, ?_, ?_⟩
                · intro z
                  unfold fileWrite
                  simp only [g2]
                  rw [getNode_setNode_ne _ _ _ _ (fun h => hsn h.symm)]
                  exact g1
                · intro z
                  unfold fileWrite
                  simp only [g1]
                  rw [getNode_setNode_ne _ _ _ _ hsn]
                  exact g2

/-- C8 witness: copying `f` to `g` in the concrete tree keeps the source
intact and later writes to either file leave the other unchanged. -/
theorem c8_witness :
    getNode (cp fileFS "f" "g" none).1 1 = Node.file "f" "data" none ∧
    getNode (cp fileFS "f" "g" none).1 2 = Node.file "g" "data" none ∧
    getNode (fileWrite (cp fileFS "f" "g" none).1 2 "changed").1 1 =
      Node.file "f" "data" none ∧
    getNode (fileWrite (cp fileFS "f" "g" none).1 1 "changed").1 2 =
      Node.file "g" "data" none := by
  have h := c8_cp_independent fileFS "f" "g" none 1 "f" "data" none rfl rfl
    (by decide) rfl
  exact ⟨h.1, h.2.1, h.2.2.1 "changed", h.2.2.2 "changed"⟩

/-! ### C9: an empty-string password is truthy-unprotected -/

theorem folderFind_notPerm (fs : FS) (f : Nat) (k : String) :
    notPermissionDenied (folderFind fs f k) = true := by
  unfold folderFind
  split
  · split
    · rfl
    · rfl
  · rfl

theorem folderAdd_notPerm (fs : FS) (f x : Nat) :
    notPermissionDenied (folderAdd fs f x).2 = true := by
  unfold folderAdd
  split
  · split
    · rfl
    · rfl
  · rfl

theorem folderRemove_notPerm (fs : FS) (f : Nat) (k : String) :
    notPermissionDenied (folderRemove fs f k).2 = true := by
  unfold folderRemove
  split
  · split
    · rfl
    · rfl
  · rfl

/-- Resolution only raises lookup (`FileNotFoundError`) or attribute
errors, never `PermissionError`. -/
theorem resolveParts_notPerm (fs : FS) : ∀ (l : List String) (n : Nat),
    notPermissionDenied (resolveParts fs n l) = true := by
  intro l
  induction l with
  | nil => intro n; rfl
  | cons a rest ih =>
      intro n
      by_cases h1 : a = ".."
      · subst h1
        rw [resolveParts_dotdot]
        exact ih _
      · by_cases h2 : a = ""
        · subst h2
          rw [resolveParts_empty]
          exact ih _
        · rw [resolveParts_seg _ _ _ _ h1 h2]
          cases hf : folderFind fs n a with
          | error e =>
              have := folderFind_notPerm fs n a
              rw [hf] at this
              exact this
          | ok nxt => exact ih _

theorem parse_path_notPerm (fs : FS) (path : String) :
    notPermissionDenied (parse_path fs path) = true := by
  unfold parse_path
  exact resolveParts_notPerm fs _ _

/-- C9: a File whose `password` attribute is the empty string `""` is
treated as unprotected by every password check: `read(p)` returns the
content for every supplied `p`; `cat`, `mv`, `cp` and `rm` on such a file
behave identically for every supplied password (no comparison happens) and
never fail with `PermissionError` — the guards test truthiness of the
stored password, and `""` is falsy. -/
theorem c9_empty_password_unprotected (fs : FS) (content nm sp dp : String)
    (p q : Option String) (s : Nat)
    (hs : parse_path fs sp = Except.ok s)
    (hn : getNode fs s = Node.file nm content (some "")) :
    readFn content (some "") p = Except.ok content ∧
    (cat fs sp p = cat fs sp q ∧ (cat fs sp p).2 = Except.ok content) ∧
    (mv fs sp dp p = mv fs sp dp q ∧
       notPermissionDenied (mv fs sp dp p).2 = true) ∧
    (cp fs sp dp p = cp fs sp dp q ∧
       notPermissionDenied (cp fs sp dp p).2 = true) ∧
    (rm fs sp p = rm fs sp q ∧
       notPermissionDenied (rm fs sp p).2 = true) := by
  have hread : ∀ r : Option String, readFn content (some "") r = Except.ok content := by
    intro r
    rfl
  have hgate : ∀ r : Option String, pwGate fs s r = false := by
    intro r
    simp only [pwGate, hn]
    rfl
  refine ⟨hread p, ⟨?_, ?_⟩, ⟨?_, ?_⟩, ⟨?_, ?_⟩, ⟨?_, ?_⟩⟩
  · unfold cat
    simp only [hs, hn]
    rw [hread p, hread q]
  · unfold cat
    simp only [hs, hn]
    exact hread p
  · unfold mv
    simp only [hs]
    cases hd : parse_path fs (destParentStr dp) with
    | error e => rfl
    | ok d => simp only [hgate p, hgate q]
  · unfold mv
    simp only [hs]
    cases hd : parse_path fs (destParentStr dp) with
    | error e =>
        have := parse_path_notPerm fs (destParentStr dp)
        rw [hd] at this
        exact this
    | ok d =>
        simp only [hgate p, Bool.false_eq_true, if_false]
        exact seqE_notPerm _ _
          (folderAdd_notPerm (setNode fs s ((getNode fs s).rename (lastSegStr dp))) d s)
          (fun a => folderRemove_notPerm a a.current ((getNode a s).name))
  · unfold cp
    simp only [hs, hn]
    cases hd : parse_path fs (destParentStr dp) with
    | error e => rfl
    | ok d => rfl
  · unfold cp
    simp only [hs, hn]
    cases hd : parse_path fs (destParentStr dp) with
    | error e =>
        have := parse_path_notPerm fs (destParentStr dp)
        rw [hd] at this
        exact this
    | ok d =>
        exact folderAdd_notPerm
          { heap := fs.heap ++ [Node.file (lastSegStr dp) content (some "")],
            root := fs.root, current := fs.current } d fs.heap.length
  · unfold rm
    simp only [hs, hgate p, hgate q]
  · unfold rm
    simp only [hs, hgate p, Bool.false_eq_true, if_false]
    exact folderRemove_notPerm fs fs.current ((getNode fs s).name)

/-- C9 witness: on the concrete empty-password file, every operation
ignores the supplied password. -/
theorem c9_witness :
    readFn "top secret" (some "") (some "guess") = Except.ok "top secret" ∧
    cat emptyPwFS "f" (some "guess") = cat emptyPwFS "f" none ∧
    (cat emptyPwFS "f" (some "guess")).2 = Except.ok "top secret" ∧
    rm emptyPwFS "f" (some "guess") = rm emptyPwFS "f" none ∧
    notPermissionDenied (rm emptyPwFS "f" (some "guess")).2 = true := by
  have h := c9_empty_password_unprotected emptyPwFS "top secret" "f" "f" "d"
    (some "guess") none 1 rfl rfl
  exact ⟨h.1, h.2.1.1, h.2.1.2, h.2.2.2.2.1, h.2.2.2.2.2⟩

/-! ### C6: mv semantics -/

/-- C6 counterexample: the source file has the present (but empty) password
`""` — a protected File per the claim — yet `mv` with the non-matching
password `"wrong"` succeeds instead of failing with `PermissionDenied`. -/
theorem c6_counterexample :
    getNode emptyPwFS 1 = Node.file "f" "top secret" (some "") ∧
    (some "wrong" : Option String) ≠ some "" ∧
    (mv emptyPwFS "f" "g" (some "wrong")).2 = Except.ok () :=
  ⟨rfl, by decide, rfl⟩

/-- C6 (amended): for every `mv(srcPath, destPath, password)` whose source
and destination-parent resolutions succeed: if the resolved source is a
File protected with a NON-EMPTY password, the supplied password must match
or `mv` fails with `PermissionError` before mutating the tree; if the gate
passes and the last segment of destPath is already taken in the destination
folder, `mv` fails with the `ValueError` of `add` (AlreadyExists); and on
success the source node has been renamed to the last segment of destPath
and inserted into the destination folder — where it is still present under
the new name whenever the destination folder is not the current folder —
after which the entry under that NEW name has been removed from the current
folder (when destination and current coincide this deletes the entry just
inserted), and any entry for the source under a different (e.g. its
original) name in any folder — in particular its original parent — is
still present. -/
theorem c6_mv_semantics (fs : FS) (sp dp : String) (pw : Option String)
    (s d : Nat)
    (hs : parse_path fs sp = Except.ok s)
    (hd : parse_path fs (destParentStr dp) = Except.ok d)
    (hslt : s < fs.heap.length) :
    (∀ nm c P, getNode fs s = Node.file nm c (some P) → P ≠ "" → pw ≠ some P →
       mv fs sp dp pw =
         (fs, Except.error (Err.permissionError "Incorrect password for protected file."))) ∧
    (pwGate fs s pw = false →
       ∀ w, childLookup (getNode fs d).children (lastSegStr dp) = some w →
         (mv fs sp dp pw).2 =
           Except.error (Err.valueError
             (pyq (lastSegStr dp) ++ " already exists in this folder."))) ∧
    ((mv fs sp dp pw).2 = Except.ok () →
       ((getNode (mv fs sp dp pw).1 s).name = lastSegStr dp ∧
        childLookup (getNode (mv fs sp dp pw).1 fs.current).children
          (lastSegStr dp) = none ∧
        (∀ pid old, childLookup (getNode fs pid).children old = some s →
           pid ≠ s → old ≠ lastSegStr dp →
           childLookup (getNode (mv fs sp dp pw).1 pid).children old = some s) ∧
        (d < fs.heap.length → d ≠ fs.current →
           childLookup (getNode (mv fs sp dp pw).1 d).children
             (lastSegStr dp) = some s))) := by
  have hs1 : getNode (setNode fs s ((getNode fs s).rename (lastSegStr dp))) s
      = (getNode fs s).rename (lastSegStr dp) :=
    getNode_setNode_same fs s _ hslt
  have hname1 : (getNode (setNode fs s ((getNode fs s).rename (lastSegStr dp))) s).name
      = lastSegStr dp := by
    rw [hs1, Node.rename_name]
  have hch1 : ∀ j, j ≠ s →
      getNode (setNode fs s ((getNode fs s).rename (lastSegStr dp))) j = getNode fs j :=
    fun j hj => getNode_setNode_ne fs s j _ (fun h => hj h.symm)
  have hlen1 : (setNode fs s ((getNode fs s).rename (lastSegStr dp))).heap.length
      = fs.heap.length := heapSet_length fs.heap s _
  refine ⟨?_, ?_, ?_⟩
  · -- the permission gate fires before any mutation
    intro nm c P hfile hP hpw2
    have hb : ((some P : Option String) != pw) = true :=
      bne_iff_ne.mpr (fun h => hpw2 h.symm)
    have hgate : pwGate fs s pw = true := by
      simp only [pwGate, hfile, pyTruthy_some_true P hP, hb, Bool.and_self]
    unfold mv
    simp only [hs, hd]
    rw [hgate, if_pos rfl]
  · -- a taken destination name raises the ValueError of add
    intro hgate w hw
    unfold mv
    simp only [hs, hd]
    rw [hgate, if_neg Bool.false_ne_true]
    have hchd : (getNode (setNode fs s ((getNode fs s).rename (lastSegStr dp))) d).children
        = (getNode fs d).children := by
      by_cases hds : d = s
      · rw [hds, hs1, Node.rename_children]
      · rw [hch1 d hds]
    unfold folderAdd
    cases hfd : getNode (setNode fs s ((getNode fs s).rename (lastSegStr dp))) d with
    | file a b e =>
        rw [hfd] at hchd
        rw [← hchd] at hw
        simp [Node.children, childLookup] at hw
    | folder dnm dcs =>
        have hdcs : dcs = (getNode fs d).children := by
          rw [hfd] at hchd
          exact hchd
        rw [← hdcs] at hw
        simp only [hname1, hw, seqE_fst_error]
  · -- success: rename, removal under the new name, frame for other entries
    intro hsucc
    unfold mv at hsucc ⊢
    simp only [hs, hd] at hsucc ⊢
    cases hgb : pwGate fs s pw with
    | true =>
        rw [hgb, if_pos rfl] at hsucc
        simp at hsucc
    | false =>
        rw [hgb, if_neg Bool.false_ne_true] at hsucc
        rw [if_neg Bool.false_ne_true]
        rcases hga : folderAdd (setNode fs s ((getNode fs s).rename (lastSegStr dp))) d s
          with ⟨fs2, r⟩
        cases r with
        | error e =>
            rw [hga, seqE_fst_error] at hsucc
            simp at hsucc
        | ok u =>
            rw [hga, seqE_fst_ok] at hsucc
            rw [seqE_fst_ok]
            replace hsucc : (folderRemove fs2 fs2.current ((getNode fs2 s).name)).2
                = Except.ok () := hsucc
            unfold folderAdd at hga
            cases hfd : getNode (setNode fs s ((getNode fs s).rename (lastSegStr dp))) d with
            | file a b e =>
                rw [hfd] at hga
                have hx := congrArg Prod.snd hga
                simp at hx
            | folder dnm dcs =>
                simp only [hfd, hname1] at hga
                cases hcl : childLookup dcs (lastSegStr dp) with
                | some w =>
                    rw [hcl] at hga
                    have hx := congrArg Prod.snd hga
                    simp at hx
                | none =>
                    rw [hcl] at hga
                    have hfs2 : fs2 = setNode
                        (setNode fs s ((getNode fs s).rename (lastSegStr dp))) d
                        (Node.folder dnm (dcs ++ [(lastSegStr dp, s)])) :=
                      (congrArg Prod.fst hga).symm
                    have hc2 : fs2.current = fs.current := by
                      rw [hfs2]
                      rfl
                    have hlen2 : fs2.heap.length = fs.heap.length := by
                      simp only [hfs2, setNode, heapSet_length]
                    have hname2 : (getNode fs2 s).name = lastSegStr dp := by
                      by_cases hds : d = s
                      · rw [hfs2, hds, getNode_setNode_same _ _ _
                          (by rw [hlen1]; exact hslt)]
                        have h2 := hs1.symm.trans (hds ▸ hfd)
                        have h3 := congrArg Node.name h2
                        rw [Node.rename_name] at h3
                        exact h3.symm
                      · rw [hfs2, getNode_setNode_ne _ _ _ _ hds, hname1]
                    rw [hname2] at hsucc
                    unfold folderRemove at hsucc
                    cases hcu : getNode fs2 fs2.current with
                    | file a2 b2 e2 =>
                        rw [hcu] at hsucc
                        simp at hsucc
                    | folder cnm ccs =>
                        simp only [hcu] at hsucc
                        cases hcc : childLookup ccs (lastSegStr dp) with
                        | none =>
                            rw [hcc] at hsucc
                            simp at hsucc
                        | some w2 =>
                            have hcurlt : fs2.current < fs2.heap.length := by
                              by_contra hge
                              push_neg at hge
                              have hdef := heapGet_oob fs2.heap fs2.current hge
                              have hcon := hcu.symm.trans hdef
                              injection hcon with hdn hdc
                              rw [hdc] at hcc
                              simp [childLookup] at hcc
                            have hfin : (folderRemove fs2 fs2.current
                                  ((getNode fs2 s).name)).1
                                = setNode fs2 fs2.current
                                    (Node.folder cnm (childErase ccs (lastSegStr dp))) := by
                              unfold folderRemove
                              simp only [hname2, hcu, hcc]
                            refine ⟨?_, ?_, ?_, ?_⟩
                            · show (getNode (folderRemove fs2 fs2.current
                                    ((getNode fs2 s).name)).1 s).name = lastSegStr dp
                              rw [hfin]
                              by_cases hcs : fs2.current = s
                              · rw [hcs, getNode_setNode_same _ _ _
                                  (by rw [hlen2]; exact hslt)]
                                have h4 := congrArg Node.name (hcs ▸ hcu)
                                rw [hname2] at h4
                                exact h4.symm
                              · rw [getNode_setNode_ne _ _ _ _ hcs]
                                exact hname2
                            · show childLookup (getNode (folderRemove fs2 fs2.current
                                    ((getNode fs2 s).name)).1 fs.current).children
                                  (lastSegStr dp) = none
                              rw [hfin, ← hc2, getNode_setNode_same _ _ _ hcurlt]
                              exact childLookup_childErase_self ccs (lastSegStr dp)
                            · intro pid old hpo hpis hold
                              show childLookup (getNode (folderRemove fs2 fs2.current
                                    ((getNode fs2 s).name)).1 pid).children old = some s
                              rw [hfin]
                              have hstep1 : getNode
                                  (setNode fs s ((getNode fs s).rename (lastSegStr dp))) pid
                                  = getNode fs pid := hch1 pid hpis
                              have hstep2 : childLookup (getNode fs2 pid).children old
                                  = some s := by
                                by_cases hpd : pid = d
                                · have hdlt : d < fs.heap.length := by
                                    by_contra hge
                                    push_neg at hge
                                    have hdef := heapGet_oob fs.heap d hge
                                    rw [hpd] at hpo
                                    have hgd : getNode fs d = Node.folder "" [] := hdef
                                    rw [hgd] at hpo
                                    simp [Node.children, childLookup] at hpo
                                  rw [hfs2, hpd, getNode_setNode_same _ _ _
                                    (by rw [hlen1]; exact hdlt)]
                                  have hds' : d ≠ s := hpd ▸ hpis
                                  have hfd' := hfd
                                  rw [hch1 d hds'] at hfd'
                                  rw [hpd, hfd'] at hpo
                                  have hdcs2 : childLookup dcs old = some s := hpo
                                  show childLookup (dcs ++ [(lastSegStr dp, s)]) old = some s
                                  rw [childLookup_append, hdcs2]
                                · rw [hfs2, getNode_setNode_ne _ _ _ _
                                    (fun h => hpd h.symm), hstep1]
                                  exact hpo
                              by_cases hpc : pid = fs2.current
                              · rw [hpc, getNode_setNode_same _ _ _ hcurlt]
                                show childLookup (childErase ccs (lastSegStr dp)) old = some s
                                rw [childLookup_childErase_ne ccs (lastSegStr dp) old hold]
                                have h6 : (getNode fs2 pid).children = ccs := by
                                  rw [hpc, hcu]
                                  rfl
                                rw [h6] at hstep2
                                exact hstep2
                              · rw [getNode_setNode_ne _ _ _ _ (fun h => hpc h.symm)]
                                exact hstep2
                            · intro hdlt2 hdc
                              show childLookup (getNode (folderRemove fs2 fs2.current
                                    ((getNode fs2 s).name)).1 d).children
                                  (lastSegStr dp) = some s
                              rw [hfin]
                              have hdc2 : fs2.current ≠ d := by
                                rw [hc2]
                                exact fun h => hdc h.symm
                              rw [getNode_setNode_ne _ _ _ _ hdc2]
                              rw [hfs2, getNode_setNode_same _ _ _
                                (by rw [hlen1]; exact hdlt2)]
                              show childLookup (dcs ++ [(lastSegStr dp, s)])
                                (lastSegStr dp) = some s
                              rw [childLookup_append, hcl]
                              simp [childLookup]

/-- A tree for exercising `mv` with a destination other than the current
folder: the root (current) holds the file `f`, the empty folder `sub`, and
a bystander file also named `g`; `mv f -> sub/g` then inserts the renamed
node into `sub` and removes the bystander entry `g` from the root. -/
def mvFS : FS :=
  { heap := [Node.folder "root" [("f", 1), ("sub", 2), ("g", 3)],
             Node.file "f" "data" none,
             Node.folder "sub" [],
             Node.file "g" "bystander" none],
    root := 0, current := 0 }

/-- C6 witness: a concrete successful `mv f -> sub/g` with destination
`sub` distinct from the current folder: the node is renamed to `g` and is
present in `sub` under the new name, the entry `g` is gone from the current
folder, and the original entry `f` still maps to the moved node. -/
theorem c6_witness :
    (getNode (mv mvFS "f" "sub/g" none).1 1).name = "g" ∧
    childLookup (getNode (mv mvFS "f" "sub/g" none).1 2).children "g" = some 1 ∧
    childLookup (getNode (mv mvFS "f" "sub/g" none).1 0).children "g" = none ∧
    childLookup (getNode (mv mvFS "f" "sub/g" none).1 0).children "f" = some 1 := by
  have h := (c6_mv_semantics mvFS "f" "sub/g" none 1 2 rfl rfl (by decide)).2.2 rfl
  exact ⟨h.1, h.2.2.2 (by decide) (by decide), h.2.1,
    h.2.2.1 0 "f" rfl (by decide) (by decide)⟩

end PyFS
